import Mathlib

/-!
Verification of the BPPI content script (`src/content.js`): mention
classification, profile-fetch caching, mention rendering, scan selection and
the debounced mutation watcher, shallowly embedded in Lean.

Text is modelled as `List Char` (JS strings); DOM anchors are modelled as a
structure carrying the attributes and ancestor-query results that the script
inspects; the async `fetchProfile` is modelled as a state-passing function on
an explicit cache, with a boolean recording whether a network call was made.
-/

namespace BPPI

/-! ## Text utilities (JS string semantics on `List Char`) -/

/-- Whitespace test used by `String.prototype.trim`. -/
def isWs (c : Char) : Bool := c.isWhitespace

/-- JS `s.trim()`: strip whitespace from both ends. -/
def trimL (l : List Char) : List Char :=
  ((l.dropWhile isWs).reverse.dropWhile isWs).reverse

/-- JS `s.startsWith('@')`. -/
def startsWithAt : List Char → Bool
  | '@' :: _ => true
  | _ => false

/-- JS truthiness of an optional string field: `undefined`/`null` and `""` are
falsy, every other string is truthy. -/
def jsTruthyStr : Option (List Char) → Bool
  | none => false
  | some s => !s.isEmpty

/-- JS `a || b` on an optional string `a` with string default `b`. -/
def jsOrStr (o : Option (List Char)) (dflt : List Char) : List Char :=
  match o with
  | none => dflt
  | some s => if s.isEmpty then dflt else s

/-! ## Data model -/

/-- Parsed profile payload, as consumed by `content.js`: only the `avatar` and
`displayName` fields are read.  Either may be absent in the JSON. -/
structure ProfileRecord where
  avatar : Option (List Char)
  displayName : Option (List Char)
deriving DecidableEq

/-- A cache value: `some record` for a parsed payload, `none` for the `null`
negative marker stored on failure (`profileCache.set(handle, null)`). -/
abbrev CacheVal := Option ProfileRecord

/-- The `profileCache` Map, keyed by handle. Insertion-ordered association
list; `cacheSet` prepends, `cacheGet` finds the most recent binding. -/
abbrev Cache := List (List Char × CacheVal)

/-- `profileCache.get(handle)` combined with `has`: `none` means no entry. -/
def cacheGet (c : Cache) (h : List Char) : Option CacheVal :=
  (c.find? (fun e => e.1 == h)).map (·.2)

/-- `profileCache.set(handle, v)`. -/
def cacheSet (c : Cache) (h : List Char) (v : CacheVal) : Cache :=
  (h, v) :: c

/-- Outcome of one `fetch` of the profile endpoint for a handle. -/
inductive NetResult where
  /-- The `fetch` promise rejects (network/transport error). -/
  | transportError
  /-- The `fetch` resolves with a status code and a body that
  `response.json()` fails to parse. -/
  | malformed (status : Nat)
  /-- The `fetch` resolves with a status code and a parseable JSON body. -/
  | payload (status : Nat) (p : ProfileRecord)
deriving DecidableEq

/-- `response.ok`: status in the 2xx range. -/
def responseOk (status : Nat) : Bool := 200 ≤ status && status < 300

/-- The `try` block of `fetchProfile` after a cache miss: `Except.error`
models a thrown exception (transport error, or `response.json()` throwing on
a malformed body). -/
def fetchTry (net : List Char → NetResult) (cache : Cache) (handle : List Char) :
    Except Unit (CacheVal × Cache) :=
  match net handle with
  | .transportError => .error ()
  | .malformed status =>
    if !responseOk status then .ok (none, cacheSet cache handle none)
    else .error ()
  | .payload status p =>
    if !responseOk status then .ok (none, cacheSet cache handle none)
    else .ok (some p, cacheSet cache handle (some p))

/-- `fetchProfile(handle)`: cache check, then fetch with every exception
caught and memoized as the `null` negative marker.  Returns the result, the
updated cache, and whether a network call was issued. -/
def fetchProfile (net : List Char → NetResult) (cache : Cache) (handle : List Char) :
    CacheVal × Cache × Bool :=
  match cacheGet cache handle with
  | some v => (v, cache, false)
  | none =>
    match fetchTry net cache handle with
    | .ok (v, c) => (v, c, true)
    | .error _ => (none, cacheSet cache handle none, true)

/-! ## Cache lemmas -/

theorem cacheGet_cacheSet (c : Cache) (h : List Char) (v : CacheVal) :
    cacheGet (cacheSet c h v) h = some v := by
  simp [cacheGet, cacheSet, List.find?]

/-- After any `fetchProfile` call the returned value is exactly what the
cache now stores for that handle. -/
theorem fetchProfile_stores (net : List Char → NetResult) (c : Cache) (h : List Char) :
    cacheGet (fetchProfile net c h).2.1 h = some (fetchProfile net c h).1 := by
  unfold fetchProfile
  cases hc : cacheGet c h with
  | some v => simp [hc]
  | none =>
    unfold fetchTry
    cases hn : net h with
    | transportError => simp [hc, hn, cacheGet_cacheSet]
    | malformed status =>
      by_cases hok : responseOk status
      · simp [hc, hn, hok, cacheGet_cacheSet]
      · simp [hc, hn, hok, cacheGet_cacheSet]
    | payload status p =>
      by_cases hok : responseOk status
      · simp [hc, hn, hok, cacheGet_cacheSet]
      · simp [hc, hn, hok, cacheGet_cacheSet]

/-! ## Claim C4 -/

/-- C4: for any two sequential lookups of the same identifier, the second
performs no network call and returns the value stored by the first (the
network oracle of the second call is irrelevant), and it leaves the cache
unchanged — so every later lookup behaves identically, negative results
included. -/
theorem fetchProfile_second_lookup_cached
    (net net' : List Char → NetResult) (c : Cache) (h : List Char) :
    fetchProfile net' (fetchProfile net c h).2.1 h
      = ((fetchProfile net c h).1, (fetchProfile net c h).2.1, false) := by
  have hs := fetchProfile_stores net c h
  generalize hx : fetchProfile net c h = x at hs ⊢
  unfold fetchProfile
  rw [hs]

/-! ## Claim C5 -/

/-- C5: for every identifier not yet cached and every failing fetch outcome —
transport error, non-2xx response status, or malformed payload — `fetchProfile`
behaves identically: it stores the negative marker in the cache, returns the
negative result, and (being a total function, every exception of the `try`
body caught) never propagates an error. -/
theorem fetchProfile_failure_uniform
    (net : List Char → NetResult) (c : Cache) (h : List Char)
    (hmiss : cacheGet c h = none)
    (hfail : net h = .transportError
      ∨ (∃ s, net h = .malformed s)
      ∨ (∃ s p, net h = .payload s p ∧ responseOk s = false)) :
    fetchProfile net c h = (none, cacheSet c h none, true) := by
  unfold fetchProfile fetchTry
  rcases hfail with hn | ⟨s, hn⟩ | ⟨s, p, hn, hok⟩
  · simp [hmiss, hn]
  · by_cases hok : responseOk s
    · simp [hmiss, hn, hok]
    · simp [hmiss, hn, hok]
  · simp [hmiss, hn, hok]

/-- Witness for C5 at a concrete input: empty cache, handle `"alice.test"`,
a network returning status 404 with a parseable body. -/
theorem fetchProfile_failure_uniform_witness :
    fetchProfile (fun _ => .payload 404 ⟨none, none⟩) [] "alice.test".toList
      = (none, cacheSet [] "alice.test".toList none, true) :=
  fetchProfile_failure_uniform _ [] "alice.test".toList rfl
    (Or.inr (Or.inr ⟨404, ⟨none, none⟩, rfl, rfl⟩))

/-! ## DOM model

A `MentionLink` anchor is modelled by the attributes and ancestor-query
results that `content.js` inspects: its `href` attribute, its child content
(original text, or the swapped-in avatar `<img>`), and one boolean per
`closest(...)` probe used by `isInPost`. -/

/-- The `<img>` element built by `replaceMention`. -/
structure Img where
  src : Option (List Char)
  alt : List Char
  title : List Char
  classes : List (List Char)
deriving DecidableEq

/-- Child content of a mention anchor: its original text, or the avatar
image swapped in by the renderer. -/
inductive LinkContent where
  | text (s : List Char)
  | image (img : Img)
deriving DecidableEq

/-- A mention anchor.  `id` is element identity (the `WeakSet` key); each
`in*` field is the truthiness of the corresponding `closest(...)` query in
`isInPost` (`inReplyBtnParent` additionally folds in the `?.parentElement`
step). -/
structure Element where
  id : Nat
  href : Option (List Char)
  content : LinkContent
  inProfileHeaderDisplayName : Bool := false
  inProfileHeaderHandle : Bool := false
  inSuggestedFollows : Bool := false
  inWhoToFollow : Bool := false
  inNav : Bool := false
  inRoleNavigation : Bool := false
  inHomeScreenFeedTabs : Bool := false
  inPostText : Bool := false
  inFeedItem : Bool := false
  inThreadPost : Bool := false
  inPostThreadItem : Bool := false
  inArticle : Bool := false
  inReplyBtnParent : Bool := false
  inMain : Bool := false
  inMainContent : Bool := false
  inPostMeta : Bool := false
  inHeader : Bool := false
deriving DecidableEq

/-- `link.textContent`: the anchor's text; an anchor holding only an `<img>`
child has empty text content. -/
def textContent (el : Element) : List Char :=
  match el.content with
  | .text s => s
  | .image _ => []

/-! ## Classifier: `extractHandle` -/

/-- The delimiter class `[/?#]` of the handle-extraction regex. -/
def isDelim (c : Char) : Bool := c == '/' || c == '?' || c == '#'

/-- The literal part of the regex `\/profile\/([^/?#]+)`. -/
def profilePat : List Char := "/profile/".toList

/-- `leadsWith p l`: `l` begins with the literal `p`. -/
def leadsWith : List Char → List Char → Bool
  | [], _ => true
  | _ :: _, [] => false
  | p :: ps, c :: cs => p == c && leadsWith ps cs

theorem leadsWith_iff (p l : List Char) : leadsWith p l = true ↔ ∃ t, l = p ++ t := by
  induction p generalizing l with
  | nil => simp [leadsWith]
  | cons a ps ih =>
    cases l with
    | nil =>
      simp only [leadsWith]
      constructor
      · intro h; cases h
      · rintro ⟨t, h⟩; cases h
    | cons c cs =>
      simp only [leadsWith, Bool.and_eq_true, beq_iff_eq, ih]
      constructor
      · rintro ⟨rfl, t, rfl⟩; exact ⟨t, rfl⟩
      · rintro ⟨t, h⟩
        injection h with h1 h2
        exact ⟨h1.symm, t, h2⟩

/-- `href.match(/\/profile\/([^/?#]+)/)`: scan left to right for the first
position where the literal `/profile/` is followed by at least one
non-delimiter character; capture the maximal run of non-delimiters there. -/
def findMatch : List Char → Option (List Char)
  | [] => none
  | c :: cs =>
    if leadsWith profilePat (c :: cs) then
      let tok := ((c :: cs).drop profilePat.length).takeWhile (fun d => !isDelim d)
      if tok.isEmpty then findMatch cs else some tok
    else findMatch cs

/-- `extractHandle(link)`: read the `href` attribute (absent, and in JS also
empty, is falsy — `findMatch [] = none` agrees) and apply the regex. -/
def extractHandle (link : Element) : Option (List Char) :=
  match link.href with
  | none => none
  | some href => findMatch href

/-! ## Classifier: `isMention` and `isInPost` -/

/-- `isMention(link)`: the trimmed text content exists and starts with `@`
(JS returns the falsy `""` itself when the trimmed text is empty). -/
def isMention (el : Element) : Bool :=
  let t := trimL (textContent el)
  !t.isEmpty && startsWithAt t

/-- `isInPost(link)`: the layered exclusion/inclusion policy, in source
order: structural exclusions, the `@`-sigil gate, post-content inclusion,
then the main-content fallback. -/
def isInPost (el : Element) : Bool :=
  if el.inProfileHeaderDisplayName then false
  else if el.inProfileHeaderHandle then false
  else if el.inSuggestedFollows then false
  else if el.inWhoToFollow then false
  else if el.inNav then false
  else if el.inRoleNavigation then false
  else if el.inHomeScreenFeedTabs then false
  else
    let linkText := trimL (textContent el)
    if !startsWithAt linkText then false
    else
      let inPostContent := el.inPostText || el.inFeedItem || el.inThreadPost ||
        el.inPostThreadItem || el.inArticle || el.inReplyBtnParent
      if inPostContent then true
      else
        let mainContent := el.inMain || el.inMainContent
        if mainContent then
          let isInHeader := el.inPostMeta || el.inHeader
          if !isInHeader then true else false
        else false

/-! ## Lemmas for the `extractHandle` characterization (C7) -/

theorem dropWhile_head_delim (l : List Char) :
    l.dropWhile (fun d => !isDelim d) = []
      ∨ ∃ d ds, l.dropWhile (fun d => !isDelim d) = d :: ds ∧ isDelim d = true := by
  induction l with
  | nil => left; rfl
  | cons a as ih =>
    by_cases h : isDelim a
    · right
      exact ⟨a, as, by simp [List.dropWhile_cons, h], h⟩
    · simpa [List.dropWhile_cons, h] using ih

/-- Soundness of the regex model: a captured token is a nonempty run of
non-delimiters occurring right after `/profile/` in the input and maximal
there. -/
theorem findMatch_sound (h t : List Char) (hm : findMatch h = some t) :
    t ≠ [] ∧ (∀ c ∈ t, isDelim c = false) ∧
    ∃ pre post, h = pre ++ profilePat ++ t ++ post ∧
      (post = [] ∨ ∃ d ds, post = d :: ds ∧ isDelim d = true) := by
  induction h with
  | nil => simp [findMatch] at hm
  | cons c cs ih =>
    unfold findMatch at hm
    by_cases hp : leadsWith profilePat (c :: cs)
    · rw [if_pos hp] at hm
      obtain ⟨rest, hrest⟩ := (leadsWith_iff _ _).mp hp
      by_cases he : (((c :: cs).drop profilePat.length).takeWhile (fun d => !isDelim d)).isEmpty
      · rw [if_pos he] at hm
        obtain ⟨h1, h2, pre, post, heq, hpost⟩ := ih hm
        exact ⟨h1, h2, c :: pre, post, by simp [heq], hpost⟩
      · rw [if_neg he] at hm
        injection hm with hm
        have hdrop : (c :: cs).drop profilePat.length = rest := by
          rw [hrest]; exact List.drop_left profilePat rest
        refine ⟨?_, ?_, [], rest.dropWhile (fun d => !isDelim d), ?_, ?_⟩
        · intro hnil
          rw [hm, hnil] at he
          simp at he
        · intro x hx
          rw [← hm] at hx
          have := List.mem_takeWhile_imp hx
          simpa using this
        · rw [hrest, ← hm, hdrop]
          simp [List.takeWhile_append_dropWhile]
        · exact dropWhile_head_delim rest
    · rw [if_neg hp] at hm
      obtain ⟨h1, h2, pre, post, heq, hpost⟩ := ih hm
      exact ⟨h1, h2, c :: pre, post, by simp [heq], hpost⟩

/-- Completeness of the regex model: if the scan finds nothing, then every
occurrence of `/profile/` in the input is followed by a delimiter (or the
end of the string — covered since a following character is assumed). -/
theorem findMatch_none (h : List Char) (hm : findMatch h = none) :
    ∀ pre d post, h = pre ++ profilePat ++ (d :: post) → isDelim d = true := by
  induction h with
  | nil =>
    intro pre d post heq
    exact absurd (congrArg List.length heq) (by simp [profilePat]; omega)
  | cons c cs ih =>
    unfold findMatch at hm
    intro pre d post heq
    by_cases hp : leadsWith profilePat (c :: cs)
    · rw [if_pos hp] at hm
      by_cases he : (((c :: cs).drop profilePat.length).takeWhile (fun d => !isDelim d)).isEmpty
      · rw [if_pos he] at hm
        cases pre with
        | nil =>
          have heq' : c :: cs = profilePat ++ (d :: post) := by simpa using heq
          have hdrop : (c :: cs).drop profilePat.length = d :: post := by
            rw [heq']; exact List.drop_left profilePat (d :: post)
          rw [hdrop, List.takeWhile_cons] at he
          by_cases hd : isDelim d
          · exact hd
          · simp [hd] at he
        | cons p ps =>
          injection heq with h1 h2
          exact ih hm ps d post h2
      · rw [if_neg he] at hm
        cases hm
    · rw [if_neg hp] at hm
      cases pre with
      | nil =>
        exfalso
        apply hp
        rw [leadsWith_iff]
        exact ⟨d :: post, by simpa using heq⟩
      | cons p ps =>
        injection heq with h1 h2
        exact ih hm ps d post h2

/-! ## Claim C7 -/

/-- C7: `extractHandle` returns `none` when the anchor has no destination;
when it returns a token, the token is a nonempty run of non-delimiter
characters standing right after `/profile/` in the destination and running
up to the next `/`, `?`, `#` or the end; and whenever no position of the
destination has `/profile/` followed by a non-delimiter character, it
returns `none`. -/
theorem extractHandle_correct :
    (∀ el : Element, el.href = none → extractHandle el = none)
    ∧ (∀ (el : Element) (h t : List Char), el.href = some h →
        extractHandle el = some t →
        t ≠ [] ∧ (∀ c ∈ t, isDelim c = false) ∧
        ∃ pre post, h = pre ++ profilePat ++ t ++ post ∧
          (post = [] ∨ ∃ d ds, post = d :: ds ∧ isDelim d = true))
    ∧ (∀ (el : Element) (h : List Char), el.href = some h →
        (∀ pre d post, h = pre ++ profilePat ++ (d :: post) → isDelim d = true) →
        extractHandle el = none) := by
  refine ⟨?_, ?_, ?_⟩
  · intro el he
    simp [extractHandle, he]
  · intro el h t he hm
    rw [show extractHandle el = findMatch h by simp [extractHandle, he]] at hm
    exact findMatch_sound h t hm
  · intro el h he hno
    rw [show extractHandle el = findMatch h by simp [extractHandle, he]]
    cases hm : findMatch h with
    | none => rfl
    | some t =>
      obtain ⟨hne, hmem, pre, post, heq, _⟩ := findMatch_sound h t hm
      cases t with
      | nil => exact absurd rfl hne
      | cons d ds =>
        have hd := hno pre d (ds ++ post) (by simpa using heq)
        have h2 := hmem d (by simp)
        rw [hd] at h2
        cases h2

/-! ## ProcessedSet (`processedLinks` WeakSet, by element identity) -/

/-- `processedLinks.has(link)`. -/
def psHas (s : List Nat) (i : Nat) : Bool := decide (i ∈ s)

/-- `processedLinks.add(link)` (idempotent, like `WeakSet.add`). -/
def psAdd (s : List Nat) (i : Nat) : List Nat := if psHas s i then s else i :: s

/-- `processedLinks.delete(link)`. -/
def psDelete (s : List Nat) (i : Nat) : List Nat := s.filter (fun j => j != i)

theorem psHas_psAdd_self (s : List Nat) (i : Nat) : psHas (psAdd s i) i = true := by
  by_cases h : psHas s i
  · simp [psAdd, h]
  · have hmem : i ∉ s := by simpa [psHas] using h
    simp [psAdd, psHas, h, hmem]

theorem psHas_psDelete_self (s : List Nat) (i : Nat) : psHas (psDelete s i) i = false := by
  simp [psHas, psDelete, List.mem_filter]

theorem psDelete_psAdd (s : List Nat) (i : Nat) (h : psHas s i = false) :
    psDelete (psAdd s i) i = s := by
  have hmem : i ∉ s := by simpa [psHas] using h
  rw [psAdd, if_neg (by simp [psHas, hmem])]
  rw [psDelete, List.filter_cons]
  simp only [bne_self_eq_false]
  rw [if_neg (by simp)]
  rw [List.filter_eq_self]
  intro a ha
  simp only [bne_iff_ne, ne_eq]
  exact fun e => hmem (e ▸ ha)

/-! ## Renderer (`replaceMention`), split at its `await` point -/

/-- The placeholder `<img>` created synchronously: class
`bppi-avatar bppi-loading`, `alt` and `title` both the original text. -/
def placeholderImg (orig : List Char) : Img :=
  { src := none
    alt := orig
    title := orig
    classes := ["bppi-avatar".toList, "bppi-loading".toList] }

/-- `img.classList.add(c)`. -/
def clAdd (cs : List (List Char)) (c : List Char) : List (List Char) :=
  if cs.contains c then cs else cs ++ [c]

/-- `img.classList.remove(c)`. -/
def clRemove (cs : List (List Char)) (c : List Char) : List (List Char) :=
  cs.filter (fun x => x != c)

/-- The synchronous part of `replaceMention`, up to the `await`: the
ProcessedSet guard, the mark, identifier extraction, and the placeholder
swap.  Returns the new ProcessedSet, the updated element, and — when a
fetch was started — the extracted handle and captured original text. -/
def replaceMentionStart (processed : List Nat) (link : Element) :
    List Nat × Element × Option (List Char × List Char) :=
  if psHas processed link.id then (processed, link, none)
  else
    let processed1 := psAdd processed link.id
    match extractHandle link with
    | none => (processed1, link, none)
    | some handle =>
      let originalText := textContent link
      (processed1,
        { link with content := .image (placeholderImg originalText) },
        some (handle, originalText))

/-- The continuation of `replaceMention` after `fetchProfile` resolves,
together with the image's load/error events (`imgLoadOk` tells whether the
avatar resource loads): success sets `src`, the tooltip label and the class
flip; a negative result, a record without a usable avatar, or an image load
failure restores the original text and clears the ProcessedSet mark. -/
def replaceMentionResolve (processed : List Nat) (link : Element)
    (originalText handle : List Char) (profile : CacheVal) (imgLoadOk : Bool) :
    List Nat × Element :=
  match profile with
  | some p =>
    if jsTruthyStr p.avatar then
      let img := placeholderImg originalText
      let img := { img with
        src := p.avatar
        title := jsOrStr p.displayName handle ++ " (@".toList ++ handle ++ ")".toList
        classes := clRemove img.classes "bppi-loading".toList }
      if imgLoadOk then
        let imgLoaded := { img with classes := clAdd img.classes "bppi-loaded".toList }
        (processed, { link with content := .image imgLoaded })
      else
        (psDelete processed link.id, { link with content := .text originalText })
    else
      (psDelete processed link.id, { link with content := .text originalText })
  | none =>
    (psDelete processed link.id, { link with content := .text originalText })

/-- `replaceMention` run to completion (the interleaving-free sequential
execution): start, fetch, resolve.  Returns ProcessedSet, cache, element,
and whether a network call was made. -/
def replaceMentionFull (net : List Char → NetResult) (imgLoadOk : Bool)
    (processed : List Nat) (cache : Cache) (link : Element) :
    List Nat × Cache × Element × Bool :=
  match replaceMentionStart processed link with
  | (p1, l1, none) => (p1, cache, l1, false)
  | (p1, l1, some (handle, originalText)) =>
    let r := fetchProfile net cache handle
    let s := replaceMentionResolve p1 l1 originalText handle r.1 imgLoadOk
    (s.1, r.2.1, s.2, r.2.2)

/-! ## Scan (`processMentions`) -/

/-- Whether `/profile/` occurs in a string: the attribute filter of
`querySelectorAll('a[href*="/profile/"]')`. -/
def containsPat : List Char → Bool
  | [] => false
  | c :: cs => leadsWith profilePat (c :: cs) || containsPat cs

/-- An anchor matched by the `a[href*="/profile/"]` query. -/
def hrefHasProfile (el : Element) : Bool :=
  match el.href with
  | none => false
  | some h => containsPat h

/-- The per-link filter of `processMentions`: matched by the query selector,
not already processed, a mention, and inside a post. -/
def selected (processed : List Nat) (el : Element) : Bool :=
  hrefHasProfile el && !psHas processed el.id && isMention el && isInPost el

/-- `mentionsToProcess`: the links a scan dispatches to the Renderer. -/
def scanSelect (processed : List Nat) (links : List Element) : List Element :=
  links.filter (selected processed)

/-- One scan cycle over a single element with the dispatched render run to
completion: the `processMentions` filter, then `replaceMention`. -/
def scanCycle (net : List Char → NetResult) (imgLoadOk : Bool)
    (processed : List Nat) (cache : Cache) (el : Element) :
    List Nat × Cache × Element × Bool :=
  if selected processed el then replaceMentionFull net imgLoadOk processed cache el
  else (processed, cache, el, false)

/-- A concrete in-post mention anchor used by several witnesses. -/
def elAlice : Element :=
  { id := 0
    href := some "x/profile/alice?y".toList
    content := .text "@alice".toList
    inPostText := true }

/-- Witness for C7: the middle conjunct applied to `elAlice`, whose
destination `x/profile/alice?y` yields the token `alice`. -/
theorem extractHandle_correct_witness :
    "alice".toList ≠ [] ∧ (∀ c ∈ "alice".toList, isDelim c = false) ∧
    ∃ pre post, "x/profile/alice?y".toList = pre ++ profilePat ++ "alice".toList ++ post ∧
      (post = [] ∨ ∃ d ds, post = d :: ds ∧ isDelim d = true) :=
  extractHandle_correct.2.1 elAlice "x/profile/alice?y".toList "alice".toList rfl (by decide)

/-- `elAlice` after the placeholder swap, ready for resolution. -/
def elAliceSwapped : Element :=
  { elAlice with content := .image (placeholderImg "@alice".toList) }

/-- An in-post mention anchor whose destination contains `/profile/` but
yields no parseable identifier (the token position holds a delimiter). -/
def elBadHref : Element :=
  { id := 0
    href := some "/profile/#".toList
    content := .text "@bob".toList
    inPostText := true }

/-! ## Claim C1 -/

/-- C1 counterexample: on `elBadHref` identifier extraction fails, yet
`replaceMention` — which adds the element to `processedLinks` *before*
extracting — leaves the mark in place, so the element is not eligible for a
later scan, contrary to the claim. -/
theorem extraction_failure_counterexample :
    extractHandle elBadHref = none
    ∧ psHas (replaceMentionStart [] elBadHref).1 0 = true
    ∧ selected (replaceMentionStart [] elBadHref).1 elBadHref = false := by
  decide

/-- C1 (amended): on extraction failure the Renderer abandons the element —
no content change, no pending fetch — but the element was already marked
processed and the mark is not cleared, so it stays ineligible for later
scans. -/
theorem extraction_failure_abandons_marked
    (processed : List Nat) (el : Element)
    (hn : psHas processed el.id = false) (hx : extractHandle el = none) :
    replaceMentionStart processed el = (psAdd processed el.id, el, none)
    ∧ psHas (psAdd processed el.id) el.id = true
    ∧ selected (psAdd processed el.id) el = false := by
  refine ⟨?_, psHas_psAdd_self processed el.id, ?_⟩
  · simp [replaceMentionStart, hn, hx]
  · simp [selected, psHas_psAdd_self processed el.id]

/-- Witness for the amended C1 at `elBadHref` with an empty ProcessedSet. -/
theorem extraction_failure_abandons_marked_witness :
    replaceMentionStart [] elBadHref = (psAdd [] 0, elBadHref, none)
    ∧ psHas (psAdd [] 0) 0 = true
    ∧ selected (psAdd [] 0) elBadHref = false :=
  extraction_failure_abandons_marked [] elBadHref rfl (by decide)

/-! ## Claim C2 -/

/-- C2 counterexample: the lookup succeeded (a non-negative record, merely
lacking an avatar) and the image never failed to load, yet the original text
is restored — refuting the claimed "if and only if". -/
theorem restore_iff_counterexample :
    ¬ (((replaceMentionResolve [0] elAliceSwapped "@alice".toList "alice".toList
          (some ⟨none, some "Alice".toList⟩) true).2.content = .text "@alice".toList)
        ↔ (((some ⟨none, some "Alice".toList⟩ : CacheVal) = none) ∨ (true = false))) := by
  decide

/-- C2 (amended): for a processed mention, the original text is restored iff
the lookup failed, or the returned record lacks a usable avatar reference,
or the avatar image failed to load; in every other case the element keeps
the avatar image, its source set to the record's avatar. -/
theorem restore_iff (processed : List Nat) (el : Element)
    (orig handle : List Char) (res : CacheVal) (ok : Bool) :
    (((replaceMentionResolve processed el orig handle res ok).2.content = .text orig)
      ↔ (res = none ∨ (∃ p, res = some p ∧ jsTruthyStr p.avatar = false) ∨ ok = false))
    ∧ (∀ p, res = some p → jsTruthyStr p.avatar = true → ok = true →
        ∃ img, (replaceMentionResolve processed el orig handle res ok).2.content = .image img
          ∧ img.src = p.avatar) := by
  constructor
  · cases res with
    | none => simp [replaceMentionResolve]
    | some p =>
      by_cases ht : jsTruthyStr p.avatar
      · cases ok with
        | true => simp [replaceMentionResolve, ht]
        | false => simp [replaceMentionResolve, ht]
      · have ht' : jsTruthyStr p.avatar = false := by simpa using ht
        simp [replaceMentionResolve, ht']
  · rintro p rfl ht rfl
    exact ⟨{ placeholderImg orig with
        src := p.avatar
        title := jsOrStr p.displayName handle ++ " (@".toList ++ handle ++ ")".toList
        classes := clAdd (clRemove (placeholderImg orig).classes "bppi-loading".toList)
          "bppi-loaded".toList },
      by simp [replaceMentionResolve, ht], rfl⟩

/-- Witness for the amended C2: a negative result restores the text, and a
usable avatar with a successful load keeps the image. -/
theorem restore_iff_witness :
    (((replaceMentionResolve [0] elAliceSwapped "@alice".toList "alice".toList none
        true).2.content = .text "@alice".toList)
      ↔ ((none : CacheVal) = none
          ∨ (∃ p, (none : CacheVal) = some p ∧ jsTruthyStr p.avatar = false)
          ∨ true = false))
    ∧ ∃ img, (replaceMentionResolve [0] elAliceSwapped "@alice".toList "alice".toList
        (some ⟨some "https://x/img.jpg".toList, some "Alice".toList⟩)
        true).2.content = .image img
        ∧ img.src = some "https://x/img.jpg".toList :=
  ⟨(restore_iff [0] elAliceSwapped "@alice".toList "alice".toList none true).1,
   (restore_iff [0] elAliceSwapped "@alice".toList "alice".toList
      (some ⟨some "https://x/img.jpg".toList, some "Alice".toList⟩) true).2
     ⟨some "https://x/img.jpg".toList, some "Alice".toList⟩ rfl (by decide) rfl⟩

/-! ## Claim C8 -/

/-- C8: when the lookup yields a record with a usable avatar reference, the
image's source is set to that reference and its tooltip label to
`{displayName or identifier} (@{identifier})`. -/
theorem resolved_sets_src_and_label (processed : List Nat) (el : Element)
    (orig handle : List Char) (p : ProfileRecord) (ok : Bool)
    (ht : jsTruthyStr p.avatar = true) (hok : ok = true) :
    ∃ img, (replaceMentionResolve processed el orig handle (some p) ok).2.content = .image img
      ∧ img.src = p.avatar
      ∧ img.title = jsOrStr p.displayName handle ++ " (@".toList ++ handle ++ ")".toList := by
  subst hok
  exact ⟨{ placeholderImg orig with
      src := p.avatar
      title := jsOrStr p.displayName handle ++ " (@".toList ++ handle ++ ")".toList
      classes := clAdd (clRemove (placeholderImg orig).classes "bppi-loading".toList)
        "bppi-loaded".toList },
    by simp [replaceMentionResolve, ht], rfl, rfl⟩

/-- Witness for C8: the spec scenario — identifier `alice.test`, record
`{avatar: "https://x/img.jpg", displayName: "Alice"}` — yields that image
source and the label `Alice (@alice.test)`. -/
theorem resolved_sets_src_and_label_witness :
    ∃ img, (replaceMentionResolve [0] elAliceSwapped "@alice.test".toList "alice.test".toList
        (some ⟨some "https://x/img.jpg".toList, some "Alice".toList⟩) true).2.content = .image img
      ∧ img.src = some "https://x/img.jpg".toList
      ∧ img.title = "Alice (@alice.test)".toList := by
  obtain ⟨img, h1, h2, h3⟩ := resolved_sets_src_and_label [0] elAliceSwapped
    "@alice.test".toList "alice.test".toList
    ⟨some "https://x/img.jpg".toList, some "Alice".toList⟩ true (by decide) rfl
  exact ⟨img, h1, h2, by rw [h3]; decide⟩

/-! ## Claim C9 -/

/-- C9: in-scope classification implies the mention sigil: whenever
`isInPost` accepts an element, its trimmed text starts with `@`, and hence
`isMention` accepts it as well. -/
theorem isInPost_implies_isMention (el : Element) (h : isInPost el = true) :
    startsWithAt (trimL (textContent el)) = true ∧ isMention el = true := by
  by_cases hs : startsWithAt (trimL (textContent el)) = true
  · have hne : (trimL (textContent el)).isEmpty = false := by
      cases ht : trimL (textContent el) with
      | nil => rw [ht] at hs; simp [startsWithAt] at hs
      | cons a as => rfl
    exact ⟨hs, by simp [isMention, hne, hs]⟩
  · exfalso
    have hs' : startsWithAt (trimL (textContent el)) = false := by
      simpa using hs
    have hfalse : isInPost el = false := by
      unfold isInPost
      simp [hs']
    rw [hfalse] at h
    exact Bool.noConfusion h

/-- Witness for C9 at the concrete in-post anchor `elAlice`. -/
theorem isInPost_implies_isMention_witness :
    startsWithAt (trimL (textContent elAlice)) = true ∧ isMention elAlice = true :=
  isInPost_implies_isMention elAlice (by decide)

/-! ## Claim C3 -/

/-- C3: (i) once the Renderer starts on an element it is marked; (ii) a
`Resolved` element keeps its mark; (iii) a marked element — `Processing` or
`Resolved` — is never selected for dispatch by a scan; (iv) the Renderer is
a terminal no-op on a marked element; (v) every `Reverted` transition clears
the mark; (vi) an unmarked element passing the filters is selected again on
the next scan. -/
theorem dispatch_at_most_once :
    (∀ (processed : List Nat) (el : Element),
      psHas (replaceMentionStart processed el).1 el.id = true)
    ∧ (∀ (processed : List Nat) (el : Element) (orig handle : List Char) (p : ProfileRecord),
        jsTruthyStr p.avatar = true →
        (replaceMentionResolve processed el orig handle (some p) true).1 = processed)
    ∧ (∀ (processed : List Nat) (el : Element) (links : List Element),
        psHas processed el.id = true → el ∉ scanSelect processed links)
    ∧ (∀ (processed : List Nat) (el : Element),
        psHas processed el.id = true →
        replaceMentionStart processed el = (processed, el, none))
    ∧ (∀ (processed : List Nat) (el : Element) (orig handle : List Char)
        (res : CacheVal) (ok : Bool),
        (res = none ∨ ∃ p, res = some p ∧ (jsTruthyStr p.avatar = false ∨ ok = false)) →
        psHas (replaceMentionResolve processed el orig handle res ok).1 el.id = false)
    ∧ (∀ (processed : List Nat) (el : Element) (links : List Element),
        psHas processed el.id = false → el ∈ links →
        hrefHasProfile el = true → isMention el = true → isInPost el = true →
        el ∈ scanSelect processed links) := by
  refine ⟨?_, ?_, ?_, ?_, ?_, ?_⟩
  · intro processed el
    unfold replaceMentionStart
    by_cases hp : psHas processed el.id
    · simp [hp]
    · cases hx : extractHandle el with
      | none => simp [hp, hx, psHas_psAdd_self]
      | some handle => simp [hp, hx, psHas_psAdd_self]
  · intro processed el orig handle p ht
    simp [replaceMentionResolve, ht]
  · intro processed el links hp
    simp [scanSelect, List.mem_filter, selected, hp]
  · intro processed el hp
    simp [replaceMentionStart, hp]
  · intro processed el orig handle res ok hrev
    rcases hrev with rfl | ⟨p, rfl, hcase⟩
    · simp [replaceMentionResolve, psHas_psDelete_self]
    · rcases hcase with ht | rfl
      · simp [replaceMentionResolve, ht, psHas_psDelete_self]
      · by_cases ht : jsTruthyStr p.avatar
        · simp [replaceMentionResolve, ht, psHas_psDelete_self]
        · simp [replaceMentionResolve, ht, psHas_psDelete_self]
  · intro processed el links hp hmem hh hm hpost
    simp [scanSelect, List.mem_filter, selected, hp, hmem, hh, hm, hpost]

/-- Witness for C3: a marked `elAlice` is not selected, and a `Reverted`
element (negative lookup) has its mark cleared. -/
theorem dispatch_at_most_once_witness :
    elAlice ∉ scanSelect [0] [elAlice]
    ∧ psHas (replaceMentionResolve [0] elAliceSwapped "@alice".toList "alice".toList
        none true).1 0 = false :=
  ⟨dispatch_at_most_once.2.2.1 [0] elAlice [elAlice] (by decide),
   dispatch_at_most_once.2.2.2.2.1 [0] elAliceSwapped "@alice".toList "alice".toList
     none true (Or.inl rfl)⟩

/-! ## Claim C10 -/

/-- C10: a 2xx parseable payload lacking an avatar is cached as a success
record, not a negative result; the Renderer nevertheless restores the
original text and clears the ProcessedSet mark; so the element is selected
again by every subsequent scan, swaps to the placeholder, reverts again, and
returns to exactly the prior state — with the cache hit preventing any
network call. -/
theorem avatarless_success_loops :
    (∀ (net : List Char → NetResult) (cache : Cache) (handle : List Char)
        (p : ProfileRecord) (status : Nat),
      cacheGet cache handle = none → net handle = .payload status p →
      responseOk status = true →
      fetchProfile net cache handle = (some p, cacheSet cache handle (some p), true))
    ∧ (∀ (net : List Char → NetResult) (ok : Bool) (processed : List Nat)
        (cache : Cache) (el : Element) (handle orig : List Char) (p : ProfileRecord),
      psHas processed el.id = false →
      el.content = .text orig →
      extractHandle el = some handle →
      hrefHasProfile el = true → isMention el = true → isInPost el = true →
      cacheGet cache handle = some (some p) →
      jsTruthyStr p.avatar = false →
      selected processed el = true
      ∧ (replaceMentionStart processed el).2.2 = some (handle, orig)
      ∧ (replaceMentionStart processed el).2.1.content = .image (placeholderImg orig)
      ∧ scanCycle net ok processed cache el = (processed, cache, el, false)) := by
  constructor
  · intro net cache handle p status hmiss hnet hok
    unfold fetchProfile fetchTry
    simp [hmiss, hnet, hok]
  · intro net ok processed cache el handle orig p hp hcontent hx hh hm hpost hcache hav
    have horig : textContent el = orig := by simp [textContent, hcontent]
    have hsel : selected processed el = true := by
      simp [selected, hp, hh, hm, hpost]
    have hstart : replaceMentionStart processed el
        = (psAdd processed el.id,
           { el with content := .image (placeholderImg orig) },
           some (handle, orig)) := by
      simp [replaceMentionStart, hp, hx, horig]
    have hfetch : fetchProfile net cache handle = (some p, cache, false) := by
      simp [fetchProfile, hcache]
    have hel : ({ el with content := LinkContent.text orig } : Element) = el := by
      rw [← hcontent]
    refine ⟨hsel, by rw [hstart], by rw [hstart], ?_⟩
    simp [scanCycle, hsel, replaceMentionFull, hstart, hfetch, replaceMentionResolve,
      hav, psDelete_psAdd processed el.id hp, hel]

/-- Witness for C10 at `elAlice` with a cached avatar-less success record. -/
theorem avatarless_success_loops_witness :
    selected [] elAlice = true
    ∧ (replaceMentionStart [] elAlice).2.2 = some ("alice".toList, "@alice".toList)
    ∧ (replaceMentionStart [] elAlice).2.1.content = .image (placeholderImg "@alice".toList)
    ∧ scanCycle (fun _ => .payload 200 ⟨none, some "Alice".toList⟩) true []
        [("alice".toList, some ⟨none, some "Alice".toList⟩)] elAlice
      = ([], [("alice".toList, some ⟨none, some "Alice".toList⟩)], elAlice, false) :=
  avatarless_success_loops.2 (fun _ => .payload 200 ⟨none, some "Alice".toList⟩) true []
    [("alice".toList, some ⟨none, some "Alice".toList⟩)] elAlice
    "alice".toList "@alice".toList ⟨none, some "Alice".toList⟩
    rfl rfl (by decide) (by decide) (by decide) (by decide) rfl rfl

/-! ## Mutation watcher (`setupObserver`) -/

/-- One observed mutation record, abstracted to its `addedNodes.length` and
`removedNodes.length`. -/
abbrev MutationRec := Nat × Nat

/-- Watcher state: the pending debounce timer (as the absolute fire time of
`setTimeout(processMentions, 100)`) and the times at which `processMentions`
has run. -/
structure ObsState where
  timeout : Option Nat
  fired : List Nat
deriving DecidableEq

/-- `shouldProcess`: some mutation of the batch added at least one node. -/
def shouldProcess (muts : List MutationRec) : Bool :=
  muts.any (fun m => decide (0 < m.1))

/-- Let the pending timer fire if its time has come. -/
def fireDue (s : ObsState) (now : Nat) : ObsState :=
  match s.timeout with
  | some ft => if ft ≤ now then { timeout := none, fired := s.fired ++ [ft] } else s
  | none => s

/-- The observer callback for a batch arriving at time `now` (any timer due
by then has fired): a qualifying batch clears the pending timer and
schedules `processMentions` 100ms out; a non-qualifying batch does nothing. -/
def observerCallback (s : ObsState) (now : Nat) (muts : List MutationRec) : ObsState :=
  let s1 := fireDue s now
  if shouldProcess muts then { s1 with timeout := some (now + 100) } else s1

/-- Run a time-ordered trace of mutation batches from the initial state,
then let any remaining timer fire. -/
def runTrace (evs : List (Nat × List MutationRec)) : ObsState :=
  let s := evs.foldl (fun s e => observerCallback s e.1 e.2) ⟨none, []⟩
  match s.timeout with
  | some ft => { timeout := none, fired := s.fired ++ [ft] }
  | none => s

/-! ## Claim C6 -/

/-- C6: a batch schedules (or reschedules) the debounced rescan iff it added
at least one node — a removals-only batch leaves the watcher state exactly
as the mere passage of time would — and three qualifying bursts, each within
100ms of the previous, produce exactly one `processMentions` run, 100ms
after the last burst. -/
theorem debounce_correct :
    (∀ (s : ObsState) (now : Nat) (muts : List MutationRec),
      (∀ m ∈ muts, m.1 = 0) → observerCallback s now muts = fireDue s now)
    ∧ (∀ (s : ObsState) (now : Nat) (muts : List MutationRec) (m : MutationRec),
        m ∈ muts → 0 < m.1 →
        (observerCallback s now muts).timeout = some (now + 100))
    ∧ (∀ (t0 d1 d2 : Nat) (b0 b1 b2 : List MutationRec),
        shouldProcess b0 = true → shouldProcess b1 = true → shouldProcess b2 = true →
        d1 < 100 → d2 < 100 →
        runTrace [(t0, b0), (t0 + d1, b1), (t0 + d1 + d2, b2)]
          = { timeout := none, fired := [t0 + d1 + d2 + 100] }) := by
  refine ⟨?_, ?_, ?_⟩
  · intro s now muts hz
    have hq : shouldProcess muts = false := by
      rw [shouldProcess, List.any_eq_false]
      intro m hm
      simp [hz m hm]
    simp [observerCallback, hq]
  · intro s now muts m hmem hpos
    have hq : shouldProcess muts = true := by
      rw [shouldProcess, List.any_eq_true]
      exact ⟨m, hmem, by simpa using hpos⟩
    simp [observerCallback, hq]
  · intro t0 d1 d2 b0 b1 b2 h0 h1 h2 hd1 hd2
    have e1 : ¬ (t0 + 100 ≤ t0 + d1) := by omega
    have e2 : ¬ (t0 + d1 + 100 ≤ t0 + d1 + d2) := by omega
    have e1b : ¬ (100 ≤ d1) := by omega
    have e2b : ¬ (100 ≤ d2) := by omega
    simp [runTrace, observerCallback, fireDue, h0, h1, h2, e1, e2, e1b, e2b]

/-- Witness for C6: the spec scenario — three qualifying bursts 20ms apart —
runs `processMentions` exactly once, at `t = 140`. -/
theorem debounce_correct_witness :
    runTrace [(0, [(20, 0)]), (0 + 20, [(20, 0)]), (0 + 20 + 20, [(10, 5)])]
      = { timeout := none, fired := [0 + 20 + 20 + 100] } :=
  debounce_correct.2.2 0 20 20 [(20, 0)] [(20, 0)] [(10, 5)]
    (by decide) (by decide) (by decide) (by decide) (by decide)

end BPPI
